import Mathlib

/-!
Verification of the GovSight memory / retrieval subsystem.

This file gives a shallow embedding of the parts of the repository that the
claims are about and proves (or refutes) each claim against it:

* `src/govsight/memory/memory.py` — the versioned fact store
  (`remember_fact`, `get_fact`, `list_facts`, `_slugify_city_state`).
  The SQLite `facts` table is modelled as a list of rows together with the
  next AUTOINCREMENT id; the SQL statements of each method are translated
  literally (the UPDATE of `remember_fact` becomes a map over the rows, the
  `ORDER BY id DESC LIMIT 1` of `get_fact` becomes picking the row of
  maximal id, the `ORDER BY subject_slug, attr, id DESC` of `list_facts`
  becomes an insertion sort with that comparator).  `confidence` (SQL REAL)
  is modelled as a rational number; none of the claims depends on float
  rounding.

* `src/archive/talk2.py` — the constraint merger (`merge_constraints`,
  `_merge_list_safe`), the stage-2 semantic retrieval with contamination
  guard (`_constraint_tokens`, `_text_matches_tokens`,
  `get_pinecone_answer`), and the stage-3 web corroboration
  (`_serp_search_and_fetch`, `answer_from_web`).  Python values that flow
  through the merger are JSON-shaped (they come out of `json.loads`), so
  they are modelled by the inductive type `Val` (null, bool, int, string,
  list, string-keyed dict); floats are not needed by any claim.  Python
  `==` identifies `True` with `1` and `False` with `0`; `pyEqScalar` models
  this faithfully because `_merge_list_safe` dedupes scalar list items with
  a Python set.  External network calls (Pinecone, SerpAPI, OpenAI) are
  abstracted as inputs: the semantic stage takes the match list returned by
  the index query, the web stage takes the parsed search results and an
  arbitrary scoring oracle.

* `src/memory_manager.py` — `_safe_extract_json`, with `json.loads`
  abstracted as an arbitrary fallible function `String → Except Unit Val`.
-/

namespace GovSight

/-! ## Fact store (src/govsight/memory/memory.py) -/

/-- One row of the SQLite `facts` table (see `schema.py`): columns
`id, subject_type, subject_slug, attr, value, source, confidence, status,
provenance, latest`.  Timestamps are omitted; no claim mentions them. -/
structure FactRow where
  id : Nat
  subject_type : String
  subject_slug : String
  attr : String
  value : String
  source : String
  confidence : ℚ
  status : String
  provenance : Option String
  latest : Int
  deriving DecidableEq

/-- The `facts` table: rows in insertion order plus the next AUTOINCREMENT id
(SQLite starts at 1). -/
structure FactsTable where
  rows : List FactRow
  nextId : Nat
  deriving DecidableEq

def FactsTable.empty : FactsTable := ⟨[], 1⟩

/-- The keyword arguments of `Memory.remember_fact`.  In the Python source
`source`, `confidence`, `status`, `provenance` and `latest` have defaults
`"user"`, `0.9`, `"pending-verify"`, `None`, `1`; callers that use the
spec-level `Remember` operation leave `latest` at its default `1`. -/
structure RememberArgs where
  subject_type : String
  subject_slug : String
  attr : String
  value : String
  source : String
  confidence : ℚ
  status : String
  provenance : Option String
  latest : Int
  deriving DecidableEq

/-- The filter `WHERE subject_slug=? AND attr=? AND latest=1` — the row filter used both
by the supersession UPDATE and (with `active_only`) by `get_fact`. -/
def matchKeyLatest (slug attr : String) (r : FactRow) : Bool :=
  r.subject_slug == slug && r.attr == attr && r.latest == 1

/-- Effect of `UPDATE facts SET latest=0, status='superseded' WHERE
subject_slug=? AND attr=? AND latest=1` on a single row. -/
def supersede (slug attr : String) (r : FactRow) : FactRow :=
  if matchKeyLatest slug attr r then { r with latest := 0, status := "superseded" } else r

/-- The row inserted by `remember_fact` when the table's next id is `id`. -/
def rowOfCall (id : Nat) (c : RememberArgs) : FactRow :=
  ⟨id, c.subject_type, c.subject_slug, c.attr, c.value, c.source, c.confidence,
   c.status, c.provenance, c.latest⟩

/-- Embeds `Memory.remember_fact` (memory.py lines 206-242): first the supersession
UPDATE, then the INSERT; both in one locked transaction.  Returns the new
table and `cur.lastrowid`.  The Python method performs no validation of
`subject_slug` whatsoever. -/
def remember_fact (t : FactsTable) (c : RememberArgs) : FactsTable × Nat :=
  let rows := t.rows.map (supersede c.subject_slug c.attr)
  (⟨rows ++ [rowOfCall t.nextId c], t.nextId + 1⟩, t.nextId)

/-- Semantics of `ORDER BY id DESC LIMIT 1`: the row with the greatest id (ids are unique
by construction). -/
def maxIdRow : List FactRow → Option FactRow
  | [] => none
  | r :: rs =>
    match maxIdRow rs with
    | none => some r
    | some b => if r.id < b.id then some b else some r

/-- Embeds `Memory.get_fact` (memory.py lines 244-266). -/
def get_fact (t : FactsTable) (slug attr : String) (active_only : Bool) : Option FactRow :=
  maxIdRow (t.rows.filter fun r =>
    r.subject_slug == slug && r.attr == attr && (!active_only || r.latest == 1))

/-- Python truthiness of an optional string filter argument: `if subject_slug:`
skips both `None` and the empty string. -/
def truthyStr : Option String → Option String
  | some s => if s = "" then none else some s
  | none => none

/-- The comparator realising `ORDER BY subject_slug, attr, id DESC`
(ascending on the two text columns, descending on id). -/
def factLe (r1 r2 : FactRow) : Bool :=
  match compare r1.subject_slug r2.subject_slug with
  | .lt => true
  | .gt => false
  | .eq =>
    match compare r1.attr r2.attr with
    | .lt => true
    | .gt => false
    | .eq => r2.id ≤ r1.id

def insertFact (r : FactRow) : List FactRow → List FactRow
  | [] => [r]
  | x :: xs => if factLe r x then r :: x :: xs else x :: insertFact r xs

def sortFacts : List FactRow → List FactRow
  | [] => []
  | x :: xs => insertFact x (sortFacts xs)

/-- Embeds `Memory.list_facts` (memory.py lines 268-293): optional slug/attr filters
(Python truthiness), optional `latest=1` filter, then
`ORDER BY subject_slug, attr, id DESC`. -/
def list_facts (t : FactsTable) (slug? attr? : Option String) (active_only : Bool) :
    List FactRow :=
  sortFacts (t.rows.filter fun r =>
    (match truthyStr slug? with
     | some s => r.subject_slug == s
     | none => true) &&
    (match truthyStr attr? with
     | some a => r.attr == a
     | none => true) &&
    (!active_only || r.latest == 1))

/-- Python `str.strip()` (whitespace from both ends). -/
def pyStrip (s : String) : String :=
  String.mk (((s.toList.dropWhile Char.isWhitespace).reverse.dropWhile Char.isWhitespace).reverse)

/-- Python `str.lower()` (character-wise; the strings in this development are
ASCII, where `Char.toLower` agrees with Python). -/
def pyLower (s : String) : String := String.mk (s.toList.map Char.toLower)

/-- Embeds `_slugify_city_state` (memory.py lines 68-84): strip, lowercase, replace
spaces by underscores, append the (stripped, lowered) state when truthy
(Python `if state:` skips `None` and the empty string). -/
def _slugify_city_state (name : String) (state : Option String) : String :=
  let base := String.mk ((pyLower (pyStrip name)).toList.map fun ch => if ch = ' ' then '_' else ch)
  match state with
  | some st => if st = "" then base else base ++ "_" ++ pyLower (pyStrip st)
  | none => base

/-- Running a sequence of `remember_fact` calls from the empty table. -/
def runRemember (cs : List RememberArgs) : FactsTable :=
  cs.foldl (fun t c => (remember_fact t c).1) FactsTable.empty

/-! ### Lemmas about the fact store -/

/-- After the supersession UPDATE, a row never satisfies the
`(slug, attr, latest=1)` filter: either it matched and its `latest` flag was
cleared, or it did not match in the first place. -/
theorem supersede_not_latest (s a : String) (r : FactRow) :
    matchKeyLatest s a (supersede s a r) = false := by
  cases hb : matchKeyLatest s a r with
  | false => simp [supersede, hb]
  | true =>
    unfold supersede
    rw [hb]
    simp [matchKeyLatest]

theorem countP_supersede (s a : String) (rows : List FactRow) :
    (rows.map (supersede s a)).countP (matchKeyLatest s a) = 0 := by
  rw [List.countP_eq_zero]
  intro r hr
  obtain ⟨x, _, rfl⟩ := List.mem_map.mp hr
  simp [supersede_not_latest]

theorem filter_supersede_nil (s a : String) (rows : List FactRow) :
    (rows.map (supersede s a)).filter (matchKeyLatest s a) = [] := by
  rw [List.filter_eq_nil_iff]
  intro r hr
  obtain ⟨x, _, rfl⟩ := List.mem_map.mp hr
  simp [supersede_not_latest]

theorem matchKeyLatest_rowOfCall (c : RememberArgs) (id : Nat) (h1 : c.latest = 1) :
    matchKeyLatest c.subject_slug c.attr (rowOfCall id c) = true := by
  simp [matchKeyLatest, rowOfCall, h1]

/-- After any `remember_fact` call (with the default `latest=1`), `get_fact`
with `active_only` finds exactly the freshly inserted row. -/
theorem get_fact_remember (t : FactsTable) (c : RememberArgs) (h1 : c.latest = 1) :
    get_fact (remember_fact t c).1 c.subject_slug c.attr true = some (rowOfCall t.nextId c) := by
  have hpred : (fun r : FactRow => r.subject_slug == c.subject_slug && r.attr == c.attr &&
      (!true || r.latest == 1)) = matchKeyLatest c.subject_slug c.attr := by
    funext r
    simp [matchKeyLatest]
  unfold get_fact remember_fact
  rw [hpred, List.filter_append, filter_supersede_nil]
  simp [matchKeyLatest_rowOfCall c t.nextId h1, maxIdRow]

theorem runRemember_nextId (cs : List RememberArgs) :
    (runRemember cs).nextId = cs.length + 1 := by
  suffices h : ∀ t : FactsTable,
      (cs.foldl (fun t c => (remember_fact t c).1) t).nextId = t.nextId + cs.length by
    simpa [runRemember, FactsTable.empty, Nat.add_comm] using h ⟨[], 1⟩
  induction cs with
  | nil => intro t; simp
  | cons c cs ih =>
    intro t
    simp only [List.foldl_cons, ih]
    simp [remember_fact]
    omega

/-! ### Claim theorems: fact store -/

/-- C1.  For every sequence of `remember_fact` calls on the same
`(subject_slug, attr)` key (each with the spec-level `Remember` signature,
i.e. the default `latest = 1`), starting from the empty facts table:
after each call (equivalently, for every such call sequence) at most one
row for that key has `latest = 1`, and `get_fact` with `active_only = true`
returns exactly the row inserted by the most recent call (its id is the
sequence length, its fields those of the last call). -/
theorem remember_supersession_invariant (cs : List RememberArgs) (s a : String)
    (hall : ∀ c ∈ cs, c.subject_slug = s ∧ c.attr = a ∧ c.latest = 1) :
    (runRemember cs).rows.countP (matchKeyLatest s a) ≤ 1
    ∧ ∀ h : cs ≠ [], get_fact (runRemember cs) s a true
        = some (rowOfCall cs.length (cs.getLast h)) := by
  rcases List.eq_nil_or_concat cs with rfl | ⟨p, c, hcs⟩
  · exact ⟨by simp [runRemember, FactsTable.empty], fun h => absurd rfl h⟩
  · rw [List.concat_eq_append] at hcs
    subst hcs
    obtain ⟨hs, ha, hl⟩ := hall c (by simp)
    have hrun : runRemember (p ++ [c]) = (remember_fact (runRemember p) c).1 := by
      simp [runRemember, List.foldl_append]
    constructor
    · rw [hrun]
      subst hs ha
      simp only [remember_fact, List.countP_append, countP_supersede]
      simp [matchKeyLatest_rowOfCall c _ hl]
    · intro h
      rw [hrun]
      have hg := get_fact_remember (runRemember p) c hl
      rw [hs, ha, runRemember_nextId] at hg
      rw [hg]
      have hlast : (p ++ [c]).getLast h = c := List.getLast_append_singleton p
      rw [hlast]
      simp

/-- Concrete instantiation of `remember_supersession_invariant` (witness):
a single call remembering the mayor of Grandview, TX. -/
theorem remember_supersession_invariant_witness :
    (runRemember [⟨"city", "grandview_tx", "mayor", "Bill Houston", "user", 9/10,
        "pending-verify", none, 1⟩]).rows.countP (matchKeyLatest "grandview_tx" "mayor") ≤ 1
    ∧ ∀ h : ([⟨"city", "grandview_tx", "mayor", "Bill Houston", "user", 9/10,
        "pending-verify", none, 1⟩] : List RememberArgs) ≠ [],
        get_fact (runRemember [⟨"city", "grandview_tx", "mayor", "Bill Houston", "user", 9/10,
          "pending-verify", none, 1⟩]) "grandview_tx" "mayor" true
        = some (rowOfCall 1 (([⟨"city", "grandview_tx", "mayor", "Bill Houston", "user", 9/10,
          "pending-verify", none, 1⟩] : List RememberArgs).getLast h)) :=
  remember_supersession_invariant _ "grandview_tx" "mayor" (by
    intro c hc
    simp only [List.mem_singleton] at hc
    subst hc
    exact ⟨rfl, rfl, rfl⟩)

/-- The two calls of the end-to-end scenario of C4 (all other arguments at
their Python defaults: `source` is passed as `"user"`, `confidence = 0.9`,
`status = "pending-verify"`, `provenance = None`, `latest = 1`). -/
def c4call1 : RememberArgs :=
  ⟨"city", "grandview_tx", "mayor", "Bill Houston", "user", 9/10, "pending-verify", none, 1⟩

def c4call2 : RememberArgs :=
  ⟨"city", "grandview_tx", "mayor", "Tommy Brandt", "user", 9/10, "pending-verify", none, 1⟩

def c4table : FactsTable := runRemember [c4call1, c4call2]

def c4rows : List FactRow := list_facts c4table (some "grandview_tx") (some "mayor") false

/-- C4, counterexample.  In the scenario, `list_facts` orders by
`subject_slug, attr, id DESC`, so the FIRST returned row is the most recent
one (`"Tommy Brandt"`, status `"pending-verify"`, `latest = 1`) — not, as the
claim states, the superseded row. -/
theorem c4_first_row_not_superseded :
    (get_fact c4table "grandview_tx" "mayor" true).map FactRow.value = some "Tommy Brandt"
    ∧ c4rows.length = 2
    ∧ c4rows.head?.map FactRow.status = some "pending-verify"
    ∧ c4rows.head?.map FactRow.latest = some 1
    ∧ (some "pending-verify" : Option String) ≠ some "superseded"
    ∧ (some (1 : Int) : Option Int) ≠ some 0 := by
  refine ⟨rfl, rfl, rfl, rfl, by decide, by decide⟩

/-- C4, amended.  Same scenario, with the row order corrected: `GetLatest`
returns `"Tommy Brandt"`, `ListFacts(slug, attr, activeOnly=false)` returns
exactly 2 rows, the first being the latest row (`"Tommy Brandt"`,
`pending-verify`, `latest = 1`, id 2) and the SECOND being the superseded one
(`"Bill Houston"`, `superseded`, `latest = 0`, id 1). -/
theorem c4_scenario_amended :
    (get_fact c4table "grandview_tx" "mayor" true).map FactRow.value = some "Tommy Brandt"
    ∧ c4rows.map (fun r => (r.value, r.status, r.latest)) =
        [("Tommy Brandt", "pending-verify", 1), ("Bill Houston", "superseded", 0)]
    ∧ c4rows.map FactRow.id = [2, 1] :=
  ⟨rfl, rfl, rfl⟩

/-- A `remember_fact` call whose `subject_slug` is empty (and stays empty
after `_slugify_city_state` normalization). -/
def c5call : RememberArgs :=
  ⟨"city", "", "mayor", "Nobody", "user", 9/10, "pending-verify", none, 1⟩

/-- C5, counterexample.  `remember_fact` performs no slug validation at all
(there is no `InvalidKey` anywhere in the code base): called with a
`subject_slug` that is empty after normalization it does NOT fail before
writing — it inserts a fact row, and `get_fact` then finds it. -/
theorem c5_empty_slug_inserts :
    _slugify_city_state "" none = ""
    ∧ (remember_fact FactsTable.empty c5call).1.rows.length = 1
    ∧ (get_fact (remember_fact FactsTable.empty c5call).1 "" "mayor" true).map FactRow.value
        = some "Nobody" :=
  ⟨rfl, rfl, rfl⟩

/-- C5, amended.  `remember_fact` called with an empty (malformed)
`subject_slug` behaves like any other call: it appends exactly one new row
(the row of the call) to the table rather than rejecting the write. -/
theorem c5_amended_no_validation (t : FactsTable) (c : RememberArgs)
    (_h : c.subject_slug = "") :
    (remember_fact t c).1.rows.length = t.rows.length + 1
    ∧ (remember_fact t c).1.rows.getLast? = some (rowOfCall t.nextId c) := by
  refine ⟨by simp [remember_fact], ?_⟩
  simp [remember_fact]

/-- Concrete instantiation of `c5_amended_no_validation` (witness). -/
theorem c5_amended_no_validation_witness :
    (remember_fact FactsTable.empty c5call).1.rows.length = FactsTable.empty.rows.length + 1
    ∧ (remember_fact FactsTable.empty c5call).1.rows.getLast?
        = some (rowOfCall FactsTable.empty.nextId c5call) :=
  c5_amended_no_validation FactsTable.empty c5call rfl

/-! ## JSON-shaped Python values (src/archive/talk2.py)

The constraint maps that reach `merge_constraints`, `_constraint_tokens` and
friends are produced by `json.loads` (via `_safe_extract_json`), so their
values are exactly JSON values: `None`, booleans, numbers, strings, lists
and string-keyed dicts.  `Val` models this domain (with `Int` for numbers;
no claim depends on float behaviour).  Python `==`, which the merger's
dedup logic relies on, identifies `True` with `1` and `False` with `0`;
`pyEqScalar` models that faithfully. -/

inductive Val where
  | vnone
  | vbool (b : Bool)
  | vint (n : Int)
  | vstr (s : String)
  | vlist (xs : List Val)
  | vdict (kvs : List (String × Val))

/-- Python truthiness (`bool(v)`). -/
def truthy : Val → Bool
  | .vnone => false
  | .vbool b => b
  | .vint n => n != 0
  | .vstr s => s != ""
  | .vlist xs => !xs.isEmpty
  | .vdict kvs => !kvs.isEmpty

/-- The test `isinstance(item, (str, int, float, bool, type(None)))` — the scalar test
of `keyify` inside `_merge_list_safe`. -/
def isScalar : Val → Bool
  | .vnone => true
  | .vbool _ => true
  | .vint _ => true
  | .vstr _ => true
  | _ => false

/-- Python `==` on scalar values: `True == 1`, `False == 0`, otherwise
values of different types are unequal. -/
def pyEqScalar : Val → Val → Bool
  | .vnone, .vnone => true
  | .vbool a, .vbool b => a == b
  | .vbool a, .vint n => (a && n == 1) || (!a && n == 0)
  | .vint n, .vbool a => (a && n == 1) || (!a && n == 0)
  | .vint m, .vint n => m == n
  | .vstr s, .vstr t => s == t
  | _, _ => false

/-- The opening and closing brace characters (used when rendering JSON). -/
def lbrace : Char := Char.ofNat 123

def rbrace : Char := Char.ofNat 125

def hexDigit (n : Nat) : Char := if n < 10 then Char.ofNat (48 + n) else Char.ofNat (87 + n)

def hex4 (n : Nat) : List Char :=
  [hexDigit (n / 4096 % 16), hexDigit (n / 256 % 16), hexDigit (n / 16 % 16), hexDigit (n % 16)]

/-- How `json.dumps` (its default `ensure_ascii` C encoder) escapes one
character of a string: `"` and `\` get a backslash, the usual control
characters get their short escapes, every other character outside the
printable ASCII range `0x20..0x7e` becomes `\uXXXX`. -/
def jsonEscapeChar (c : Char) : List Char :=
  if c = '"' then ['\\', '"']
  else if c = '\\' then ['\\', '\\']
  else if c = '\n' then ['\\', 'n']
  else if c = '\t' then ['\\', 't']
  else if c = '\r' then ['\\', 'r']
  else if c.toNat = 8 then ['\\', 'b']
  else if c.toNat = 12 then ['\\', 'f']
  else if c.toNat < 32 || c.toNat > 126 then '\\' :: 'u' :: hex4 c.toNat
  else [c]

def jsonQuote (s : String) : String :=
  String.mk ('"' :: (s.toList.map jsonEscapeChar).flatten ++ ['"'])

/-- Stable insertion sort on rendered dict entries by key — `sort_keys=True`
(Python sorts `str` keys by code point, as Lean's `compare` does). -/
def insertPair (p : String × String) : List (String × String) → List (String × String)
  | [] => [p]
  | q :: qs =>
    match compare p.1 q.1 with
    | .lt => p :: q :: qs
    | _ => q :: insertPair p qs

def sortPairs : List (String × String) → List (String × String)
  | [] => []
  | p :: ps => insertPair p (sortPairs ps)

mutual

/-- Embeds `json.dumps(item, sort_keys=True, default=str)` on the `Val` domain.
Default separators are `", "` and `": "`; `sort_keys` sorts the dict
entries by key; `default=str` never fires because every `Val` is
JSON-serializable. -/
def jsonDumps : Val → String
  | .vnone => "null"
  | .vbool b => cond b "true" "false"
  | .vint n => toString n
  | .vstr s => jsonQuote s
  | .vlist xs => "[" ++ jsonDumpsList xs ++ "]"
  | .vdict kvs =>
    String.singleton lbrace ++
      String.intercalate ", " ((sortPairs (jsonDumpsEntries kvs)).map Prod.snd) ++
      String.singleton rbrace

def jsonDumpsList : List Val → String
  | [] => ""
  | [x] => jsonDumps x
  | x :: xs => jsonDumps x ++ ", " ++ jsonDumpsList xs

def jsonDumpsEntries : List (String × Val) → List (String × String)
  | [] => []
  | (k, v) :: kvs => (k, jsonQuote k ++ ": " ++ jsonDumps v) :: jsonDumpsEntries kvs

end

/-! ## Constraint merger (talk2.py lines 148-195) -/

/-- Equality of `keyify` keys inside `_merge_list_safe`: scalars are keyed
as `("scalar", item)` and compared with Python `==`; everything else is
keyed as `("json", json.dumps(item, sort_keys=True, default=str))`.  Keys
with different tags are never equal.  (The `("repr", ...)` fallback of
`keyify` is unreachable on JSON-shaped values: `json.dumps` with
`default=str` cannot fail on a finite string-keyed tree.) -/
def keyEq (x y : Val) : Bool :=
  if isScalar x && isScalar y then pyEqScalar x y
  else if !isScalar x && !isScalar y then jsonDumps x == jsonDumps y
  else false

/-- The loop of `_merge_list_safe`: `seen` holds the keys of the items kept
so far, an item is appended exactly when no kept item has an equal key. -/
def mergeListGo (kept : List Val) : List Val → List Val
  | [] => kept
  | item :: rest =>
    if kept.any fun j => keyEq j item then mergeListGo kept rest
    else mergeListGo (kept ++ [item]) rest

/-- Embeds `_merge_list_safe` (talk2.py lines 148-167): dedupe `existing + incoming`
preserving order, dict items keyed by canonical JSON. -/
def _merge_list_safe (existing incoming : List Val) : List Val :=
  mergeListGo [] (existing ++ incoming)

/-- A Python dict with string keys, in insertion order.  Dicts produced by
the program have `Nodup` keys. -/
abbrev Dict := List (String × Val)

def dget : Dict → String → Option Val
  | [], _ => none
  | (k', v') :: rest, k => if k' = k then some v' else dget rest k

/-- Assignment `merged[k] = v`: replace the value of `k` in place, or append a new
binding at the end (Python dict assignment semantics). -/
def dset : Dict → String → Val → Dict
  | [], k, v => [(k, v)]
  | (k', v') :: rest, k, v => if k' = k then (k, v) :: rest else (k', v') :: dset rest k v

def dictKeys (d : Dict) : List String := d.map Prod.fst

/-- Python `v in merged[k]` where `v` is a `str` and `merged[k]` a list:
list membership by `==`, and a string only equals an equal string. -/
def strInList (s : String) (xs : List Val) : Bool :=
  xs.any fun it =>
    match it with
    | .vstr t => t == s
    | _ => false

/-- One iteration of the `for k, v in (new or {}).items()` loop of
`merge_constraints` (talk2.py lines 181-194). -/
def mergeStep (merged : Dict) (kv : String × Val) : Dict :=
  match kv.2 with
  | .vlist items =>
    let existing : List Val :=
      match dget merged kv.1 with
      | some (.vlist xs) => xs
      | some e => if truthy e then [e] else []
      | none => []
    dset merged kv.1 (.vlist (_merge_list_safe existing items))
  | .vstr s =>
    match dget merged kv.1 with
    | some (.vlist xs) =>
      if strInList s xs then merged else dset merged kv.1 (.vlist (xs ++ [.vstr s]))
    | _ => dset merged kv.1 (.vstr s)
  | other => dset merged kv.1 other

/-- Embeds `merge_constraints` (talk2.py lines 170-195).  `if not base: return
dict(new) if new else {}` returns (a copy of) `new` in both cases; otherwise
the incoming items are folded over a copy of `base`.  The function is a
total Lean function: the `isinstance` dispatch covers every `Val` shape, so
the "never raises" half of the totality claim holds by construction. -/
def merge_constraints (base new : Dict) : Dict :=
  if base.isEmpty then new else new.foldl mergeStep base

/-! ### Lemmas about the merger -/

theorem mem_dictKeys_dset_self (d : Dict) (k : String) (v : Val) :
    k ∈ dictKeys (dset d k v) := by
  induction d with
  | nil => simp [dset, dictKeys]
  | cons p rest ih =>
    obtain ⟨k', v'⟩ := p
    by_cases h : k' = k
    · simp [dset, h, dictKeys]
    · simp only [dset, if_neg h, dictKeys, List.map_cons, List.mem_cons]
      exact Or.inr ih

theorem mem_dictKeys_dset_of_mem (d : Dict) (k : String) (v : Val) (x : String)
    (hx : x ∈ dictKeys d) : x ∈ dictKeys (dset d k v) := by
  induction d with
  | nil => simp [dictKeys] at hx
  | cons p rest ih =>
    obtain ⟨k', v'⟩ := p
    by_cases h : k' = k
    · subst h
      have hd : dset ((k', v') :: rest) k' v = (k', v) :: rest := by simp [dset]
      rw [hd]
      simpa [dictKeys] using hx
    · simp only [dset, if_neg h, dictKeys, List.map_cons, List.mem_cons] at hx ⊢
      rcases hx with rfl | hx
      · exact Or.inl rfl
      · exact Or.inr (ih hx)

theorem dget_some_mem (d : Dict) (k : String) (v : Val) (h : dget d k = some v) :
    k ∈ dictKeys d := by
  induction d with
  | nil => simp [dget] at h
  | cons p rest ih =>
    obtain ⟨k', v'⟩ := p
    by_cases hk : k' = k
    · subst hk
      simp [dictKeys]
    · simp only [dget, if_neg hk] at h
      simp only [dictKeys, List.map_cons, List.mem_cons]
      exact Or.inr (ih h)

theorem mergeStep_mem_keys (m : Dict) (kv : String × Val) (x : String)
    (hx : x ∈ dictKeys m) : x ∈ dictKeys (mergeStep m kv) := by
  unfold mergeStep
  split
  · exact mem_dictKeys_dset_of_mem _ _ _ _ hx
  · split
    · split
      · exact hx
      · exact mem_dictKeys_dset_of_mem _ _ _ _ hx
    · exact mem_dictKeys_dset_of_mem _ _ _ _ hx
  · exact mem_dictKeys_dset_of_mem _ _ _ _ hx

theorem mergeStep_key_mem (m : Dict) (kv : String × Val) :
    kv.1 ∈ dictKeys (mergeStep m kv) := by
  unfold mergeStep
  split
  · exact mem_dictKeys_dset_self _ _ _
  · split
    · split
      · rename_i hd hmem
        exact dget_some_mem _ _ _ hd
      · exact mem_dictKeys_dset_self _ _ _
    · exact mem_dictKeys_dset_self _ _ _
  · exact mem_dictKeys_dset_self _ _ _

/-! ### Claim theorems: merger totality (C3) -/

/-- C3.  `merge_constraints` is total on JSON-shaped constraint maps — it is
a total Lean function (the `isinstance` dispatch covers every value shape,
and the `keyify` fallback inside `_merge_list_safe` catches any
serialization failure) — and every key present in the base map or in the
incoming map is present in the result, including maps with nested
dict/list values and lists of dicts. -/
theorem merge_totality (A B : Dict) (k : String)
    (h : k ∈ dictKeys A ∨ k ∈ dictKeys B) :
    k ∈ dictKeys (merge_constraints A B) := by
  unfold merge_constraints
  by_cases hA : A.isEmpty
  · have hAnil : A = [] := List.isEmpty_iff.mp hA
    subst hAnil
    rcases h with h | h
    · simp [dictKeys] at h
    · simpa using h
  · rw [if_neg hA]
    have key : ∀ (l : List (String × Val)) (m : Dict),
        k ∈ dictKeys m ∨ k ∈ dictKeys l → k ∈ dictKeys (l.foldl mergeStep m) := by
      intro l
      induction l with
      | nil =>
        intro m hm
        rcases hm with hm | hm
        · exact hm
        · simp [dictKeys] at hm
      | cons kv rest ih =>
        intro m hm
        simp only [List.foldl_cons]
        apply ih
        rcases hm with hm | hm
        · exact Or.inl (mergeStep_mem_keys _ _ _ hm)
        · simp only [dictKeys, List.map_cons, List.mem_cons] at hm
          rcases hm with rfl | hm
          · exact Or.inl (mergeStep_key_mem _ _)
          · exact Or.inr hm
    exact key B A h

/-- Concrete instantiation of `merge_totality` (witness): a nested-dict
value on the incoming side. -/
theorem merge_totality_witness :
    "b" ∈ dictKeys (merge_constraints [("a", Val.vnone)]
      [("b", Val.vdict [("x", Val.vint 1)]), ("c", Val.vlist [Val.vdict [("y", Val.vnone)]])]) :=
  merge_totality _ _ "b" (Or.inr (by simp [dictKeys]))

/-! ### Claim theorems: scalar/string merge rule (C6) -/

/-- C6, counterexample.  With `base = {"k": "a"}` and `incoming = {"k": "b"}`
(the base value a scalar, the incoming value a string, the two unequal),
`merge_constraints` does NOT promote to the list `["a", "b"]` claimed: the
`elif isinstance(v, str)` branch simply overrides, yielding `"b"`. -/
theorem c6_counterexample :
    dget (merge_constraints [("k", Val.vstr "a")] [("k", Val.vstr "b")]) "k"
      = some (Val.vstr "b")
    ∧ dget (merge_constraints [("k", Val.vstr "a")] [("k", Val.vstr "b")]) "k"
      ≠ some (Val.vlist [Val.vstr "a", Val.vstr "b"]) := by
  refine ⟨rfl, ?_⟩
  have h : dget (merge_constraints [("k", Val.vstr "a")] [("k", Val.vstr "b")]) "k"
      = some (Val.vstr "b") := rfl
  rw [h]
  simp

theorem dget_dset_self (d : Dict) (k : String) (v : Val) : dget (dset d k v) k = some v := by
  induction d with
  | nil => simp [dset, dget]
  | cons p rest ih =>
    obtain ⟨k', v'⟩ := p
    by_cases h : k' = k
    · simp [dset, h, dget]
    · simp [dset, h, dget, ih]

theorem dget_dset_ne (d : Dict) (k k' : String) (v : Val) (h : k' ≠ k) :
    dget (dset d k' v) k = dget d k := by
  induction d with
  | nil => simp [dset, dget, h]
  | cons p rest ih =>
    obtain ⟨k0, v0⟩ := p
    by_cases h0 : k0 = k'
    · subst h0
      simp [dset, dget, h]
    · simp [dset, h0, dget, ih]

/-- Processing an incoming item whose key differs from `k` never changes the
binding of `k`. -/
theorem mergeStep_preserve_ne (m : Dict) (kv : String × Val) (k : String)
    (h : kv.1 ≠ k) : dget (mergeStep m kv) k = dget m k := by
  unfold mergeStep
  split
  · exact dget_dset_ne _ _ _ _ h
  · split
    · split
      · rfl
      · exact dget_dset_ne _ _ _ _ h
    · exact dget_dset_ne _ _ _ _ h
  · exact dget_dset_ne _ _ _ _ h

theorem foldl_mergeStep_preserve (l : List (String × Val)) (m : Dict) (k : String)
    (h : ∀ p ∈ l, p.1 ≠ k) :
    dget (l.foldl mergeStep m) k = dget m k := by
  induction l generalizing m with
  | nil => rfl
  | cons kv rest ih =>
    simp only [List.foldl_cons]
    rw [ih _ fun p hp => h p (List.mem_cons_of_mem _ hp),
      mergeStep_preserve_ne _ _ _ (h kv (List.mem_cons_self _ _))]

/-- When the current binding of `k` is a scalar (not a list), the
`elif isinstance(v, str)` branch is a plain override. -/
theorem mergeStep_str_scalar (m : Dict) (k s : String) (u : Val)
    (hm : dget m k = some u) (hu : isScalar u = true) :
    mergeStep m (k, .vstr s) = dset m k (.vstr s) := by
  cases u with
  | vlist xs => simp [isScalar] at hu
  | vdict kvs => simp [isScalar] at hu
  | vnone => simp [mergeStep, hm]
  | vbool b => simp [mergeStep, hm]
  | vint n => simp [mergeStep, hm]
  | vstr t => simp [mergeStep, hm]

theorem dget_mem_pair (d : Dict) (k : String) (v : Val) (h : dget d k = some v) :
    (k, v) ∈ d := by
  induction d with
  | nil => simp [dget] at h
  | cons p rest ih =>
    obtain ⟨k', v'⟩ := p
    by_cases hk : k' = k
    · subst hk
      simp [dget] at h
      subst h
      exact List.mem_cons_self _ _
    · simp only [dget, if_neg hk] at h
      exact List.mem_cons_of_mem _ (ih h)

/-- C6, amended.  When the base map holds a scalar at `k` and the incoming
map (a well-formed Python dict: no duplicate keys) holds a string at `k`,
the merged value is the INCOMING string — scalar override, whether or not
the two values are equal.  Promotion into a list happens only when the base
value is itself a list. -/
theorem c6_amended_scalar_override (A B : Dict) (k s : String) (u : Val)
    (hA : dget A k = some u) (hu : isScalar u = true)
    (hB : dget B k = some (Val.vstr s)) (hnodup : (dictKeys B).Nodup) :
    dget (merge_constraints A B) k = some (Val.vstr s) := by
  have hAne : ¬A.isEmpty = true := by
    cases A
    · simp [dget] at hA
    · simp
  unfold merge_constraints
  rw [if_neg hAne]
  obtain ⟨B1, B2, rfl⟩ := List.append_of_mem (dget_mem_pair B k _ hB)
  simp only [dictKeys, List.map_append, List.map_cons] at hnodup
  have hsplit := List.nodup_append.mp hnodup
  have hkB1 : ∀ p ∈ B1, p.1 ≠ k := by
    intro p hp hpk
    exact absurd (List.mem_cons_self k _)
      (hsplit.2.2 (List.mem_map.mpr ⟨p, hp, hpk⟩))
  have hkB2 : ∀ p ∈ B2, p.1 ≠ k := by
    intro p hp hpk
    have hknodup := hsplit.2.1
    rw [List.nodup_cons] at hknodup
    exact hknodup.1 (List.mem_map.mpr ⟨p, hp, hpk⟩)
  rw [List.foldl_append, List.foldl_cons, foldl_mergeStep_preserve _ _ _ hkB2,
    mergeStep_str_scalar _ _ _ _ (by rw [foldl_mergeStep_preserve _ _ _ hkB1, hA]) hu]
  exact dget_dset_self _ _ _

/-- Concrete instantiation of `c6_amended_scalar_override` (witness):
base scalar `1`, incoming string `"b"`. -/
theorem c6_amended_scalar_override_witness :
    dget (merge_constraints [("k", Val.vint 1)] [("k", Val.vstr "b")]) "k"
      = some (Val.vstr "b") :=
  c6_amended_scalar_override [("k", Val.vint 1)] [("k", Val.vstr "b")] "k" "b"
    (Val.vint 1) rfl rfl rfl (by simp [dictKeys])

/-! ### Claim theorems: merge idempotence (C9) -/

/-- The predicate "no two items with equal canonical (sorted-key JSON) serialization" —
the duplicate-freeness notion used by the claim. -/
def dupFreeJson : List Val → Bool
  | [] => true
  | x :: xs => (xs.all fun y => jsonDumps y != jsonDumps x) && dupFreeJson xs

def dictDupFreeJson (d : Dict) : Bool :=
  d.all fun p =>
    match p.2 with
    | .vlist xs => dupFreeJson xs
    | _ => true

/-- Duplicate-freeness under the dedup key `_merge_list_safe` actually uses
(`keyify`): Python `==` for scalars, canonical JSON for structured items. -/
def dupFreeKey : List Val → Bool
  | [] => true
  | x :: xs => (xs.all fun y => !keyEq x y) && dupFreeKey xs

def dictDupFreeKey (d : Dict) : Bool :=
  d.all fun p =>
    match p.2 with
    | .vlist xs => dupFreeKey xs
    | _ => true

def c9A : Dict := [("k", Val.vlist [Val.vbool true, Val.vint 1])]

/-- C9, counterexample.  `A = {"k": [True, 1]}` has list items with DISTINCT
canonical JSON serializations (`"true"` vs `"1"`), so it satisfies the
claim's duplicate-freeness hypothesis; but `keyify` tags both items
`("scalar", item)` and Python `==` identifies `True` with `1`, so
`_merge_list_safe` dedupes them and `merge_constraints A A ≠ A`. -/
theorem c9_counterexample :
    dictDupFreeJson c9A = true
    ∧ merge_constraints c9A c9A = [("k", Val.vlist [Val.vbool true])]
    ∧ merge_constraints c9A c9A ≠ c9A := by
  refine ⟨rfl, rfl, ?_⟩
  have h : merge_constraints c9A c9A = [("k", Val.vlist [Val.vbool true])] := rfl
  rw [h]
  simp [c9A]

theorem keyEq_refl (x : Val) : keyEq x x = true := by
  cases x <;> simp [keyEq, isScalar, pyEqScalar]

/-- If every remaining item already has a kept item with an equal key, the
dedup loop keeps nothing further. -/
theorem mergeListGo_absorb (kept rest : List Val)
    (h : ∀ r ∈ rest, ∃ j ∈ kept, keyEq j r = true) :
    mergeListGo kept rest = kept := by
  induction rest with
  | nil => rfl
  | cons r rest ih =>
    obtain ⟨j, hj, hkeq⟩ := h r (List.mem_cons_self _ _)
    have hany : (kept.any fun j => keyEq j r) = true := List.any_eq_true.mpr ⟨j, hj, hkeq⟩
    simp only [mergeListGo, hany, if_true]
    exact ih fun r hr => h r (List.mem_cons_of_mem _ hr)

/-- First pass of the dedup loop over a key-duplicate-free block none of
whose items collides with the kept ones: every item is appended. -/
theorem mergeListGo_append_fresh (xs : List Val) (kept ys : List Val)
    (hdup : dupFreeKey xs = true)
    (hfresh : ∀ x ∈ xs, ∀ j ∈ kept, keyEq j x = false) :
    mergeListGo kept (xs ++ ys) = mergeListGo (kept ++ xs) ys := by
  induction xs generalizing kept with
  | nil => simp
  | cons x xs ih =>
    simp only [dupFreeKey, Bool.and_eq_true, List.all_eq_true] at hdup
    obtain ⟨hx, hxs⟩ := hdup
    have hany : (kept.any fun j => keyEq j x) = false := by
      rw [List.any_eq_false]
      intro j hj
      simp [hfresh x (List.mem_cons_self _ _) j hj]
    have hfresh' : ∀ x' ∈ xs, ∀ j ∈ kept ++ [x], keyEq j x' = false := by
      intro x' hx' j hj
      rcases List.mem_append.mp hj with hj | hj
      · exact hfresh x' (List.mem_cons_of_mem _ hx') j hj
      · simp only [List.mem_singleton] at hj
        subst hj
        simpa using hx x' hx'
    calc mergeListGo kept ((x :: xs) ++ ys)
        = mergeListGo (kept ++ [x]) (xs ++ ys) := by simp [mergeListGo, hany]
      _ = mergeListGo ((kept ++ [x]) ++ xs) ys := ih (kept ++ [x]) hxs hfresh'
      _ = mergeListGo (kept ++ x :: xs) ys := by simp [List.append_assoc]

theorem mergeListSafe_self (xs : List Val) (hdup : dupFreeKey xs = true) :
    _merge_list_safe xs xs = xs := by
  unfold _merge_list_safe
  rw [mergeListGo_append_fresh xs [] xs hdup (by intro x hx j hj; simp at hj),
    List.nil_append]
  exact mergeListGo_absorb xs xs fun r hr => ⟨r, hr, keyEq_refl r⟩

theorem dset_of_dget (d : Dict) (k : String) (v : Val) (h : dget d k = some v) :
    dset d k v = d := by
  induction d with
  | nil => simp [dget] at h
  | cons p rest ih =>
    obtain ⟨k', v'⟩ := p
    by_cases hk : k' = k
    · subst hk
      simp [dget] at h
      subst h
      simp [dset]
    · simp only [dget, if_neg hk] at h
      simp [dset, hk, ih h]

/-- Re-processing an item the map already binds (with a key-duplicate-free
list value) is a no-op. -/
theorem mergeStep_self (m : Dict) (k : String) (v : Val) (hm : dget m k = some v)
    (hv : ∀ xs, v = Val.vlist xs → dupFreeKey xs = true) :
    mergeStep m (k, v) = m := by
  cases v with
  | vlist xs =>
    simp only [mergeStep, hm]
    rw [mergeListSafe_self xs (hv xs rfl)]
    exact dset_of_dget _ _ _ hm
  | vstr s =>
    simp only [mergeStep, hm]
    exact dset_of_dget _ _ _ hm
  | vnone =>
    simp only [mergeStep, hm]
    exact dset_of_dget _ _ _ hm
  | vbool b =>
    simp only [mergeStep, hm]
    exact dset_of_dget _ _ _ hm
  | vint n =>
    simp only [mergeStep, hm]
    exact dset_of_dget _ _ _ hm
  | vdict kvs =>
    simp only [mergeStep, hm]
    exact dset_of_dget _ _ _ hm

theorem dget_of_mem_nodup (d : Dict) (k : String) (v : Val)
    (hmem : (k, v) ∈ d) (hnodup : (dictKeys d).Nodup) : dget d k = some v := by
  induction d with
  | nil => simp at hmem
  | cons p rest ih =>
    obtain ⟨k', v'⟩ := p
    simp only [List.mem_cons] at hmem
    simp only [dictKeys, List.map_cons, List.nodup_cons] at hnodup
    obtain ⟨hk', hrest⟩ := hnodup
    rcases hmem with heq | hmem
    · cases heq
      simp [dget]
    · have hne : k' ≠ k := by
        rintro rfl
        exact hk' (List.mem_map.mpr ⟨(k', v), hmem, rfl⟩)
      simp only [dget, if_neg hne]
      exact ih hmem hrest

/-- C9, amended.  `merge_constraints A A = A` holds for every well-formed
constraint map `A` (no duplicate keys) whose list values are duplicate-free
under the dedup key `_merge_list_safe` actually uses — Python `==` for
scalar items (which identifies `True` with `1` and `False` with `0`) and
canonical sorted-key JSON for structured items.  The claim's hypothesis
(pairwise distinct JSON serializations) is not sufficient, per
`c9_counterexample`. -/
theorem merge_idempotent_amended (A : Dict) (hnodup : (dictKeys A).Nodup)
    (hdup : dictDupFreeKey A = true) :
    merge_constraints A A = A := by
  unfold merge_constraints
  cases hA : A.isEmpty with
  | true => simp
  | false =>
    simp only [Bool.false_eq_true, if_false]
    have key : ∀ l : List (String × Val), (∀ p ∈ l, p ∈ A) → l.foldl mergeStep A = A := by
      intro l hl
      induction l with
      | nil => rfl
      | cons p rest ih =>
        have hpA := hl p (List.mem_cons_self _ _)
        have hget : dget A p.1 = some p.2 := dget_of_mem_nodup A p.1 p.2 hpA hnodup
        have hv : ∀ xs, p.2 = Val.vlist xs → dupFreeKey xs = true := by
          intro xs hxs
          have hall := List.all_eq_true.mp hdup p hpA
          rw [hxs] at hall
          simpa using hall
        have hstep : mergeStep A p = A := mergeStep_self A p.1 p.2 hget hv
        simp only [List.foldl_cons, hstep]
        exact ih fun q hq => hl q (List.mem_cons_of_mem _ hq)
    exact key A fun p hp => hp

/-- Concrete instantiation of `merge_idempotent_amended` (witness). -/
theorem merge_idempotent_amended_witness :
    merge_constraints [("topics", Val.vlist [Val.vstr "flood", Val.vstr "housing"])]
        [("topics", Val.vlist [Val.vstr "flood", Val.vstr "housing"])]
      = [("topics", Val.vlist [Val.vstr "flood", Val.vstr "housing"])] :=
  merge_idempotent_amended _ (by simp [dictKeys]) (by rfl)

/-! ## Stage-2 semantic retrieval with contamination guard
(talk2.py lines 284-376)

The OpenAI embedding call and the Pinecone query are external capabilities;
`get_pinecone_answer` is embedded from the point where the query result
`matches` is in hand (the two failure branches before that point also
return `(None, 0.0, [])`, the same value the claims are about). -/

def startsWithChars : List Char → List Char → Bool
  | [], _ => true
  | _ :: _, [] => false
  | a :: as, b :: bs => a == b && startsWithChars as bs

def subChars (needle : List Char) : List Char → Bool
  | [] => needle.isEmpty
  | b :: bs => startsWithChars needle (b :: bs) || subChars needle bs

/-- Python `needle in hay` on strings (substring containment). -/
def pyIn (needle hay : String) : Bool := subChars needle.toList hay.toList

/-- Python `x or y` on an optional string: `None` and `""` are falsy. -/
def orElseStr (x : Option String) (d : String) : String :=
  match x with
  | some s => if s = "" then d else s
  | none => d

/-- Models `item.get("name") or item.get("title")` inside `_constraint_tokens`. -/
def nameOrTitle (kvs : List (String × Val)) : Option Val :=
  match dget kvs "name" with
  | some v => if truthy v then some v else dget kvs "title"
  | none => dget kvs "title"

def tokenOfDict (kvs : List (String × Val)) : List String :=
  match nameOrTitle kvs with
  | some (.vstr n) => [pyLower n]
  | _ => []

def tokensOfVal : Val → List String
  | .vstr s => [pyLower s]
  | .vlist items =>
    (items.map fun item =>
      match item with
      | .vstr s => [pyLower s]
      | .vdict kvs => tokenOfDict kvs
      | _ => []).flatten
  | .vdict kvs => tokenOfDict kvs
  | _ => []

/-- Embeds `_constraint_tokens` (talk2.py lines 284-302): flatten the constraint
dict to lowercase tokens (strings, list items, `name`/`title` fields of
dict-shaped values), dropping empties. -/
def _constraint_tokens (constraints : Dict) : List String :=
  (((constraints.map Prod.snd).map tokensOfVal).flatten).filter fun t => t != ""

/-- Embeds `_text_matches_tokens` (talk2.py lines 305-309): vacuously true on an
empty token list, otherwise substring search in the lowercased text. -/
def _text_matches_tokens (text : String) (tokens : List String) : Bool :=
  if tokens.isEmpty then true
  else tokens.any fun tok => pyIn tok (pyLower text)

/-- One Pinecone match: similarity score and metadata fields (absent dict
keys are `none`).  Scores are modelled as rationals; no claim depends on
float rounding. -/
structure PMeta where
  type? : Option String
  text? : Option String
  summary? : Option String
  title? : Option String
  deriving DecidableEq

structure PMatch where
  id : String
  score : ℚ
  metadata : PMeta
  deriving DecidableEq

/-- The test whether the declared metadata type is "fact" or "session_summary". -/
def isCurated (m : PMatch) : Bool :=
  m.metadata.type? == some "fact" || m.metadata.type? == some "session_summary"

/-- The low-information filter applied to non-curated results:
`(m["metadata"].get("text") or "").lower()` contains one of the canned
"I do not know" phrases. -/
def selfPoison (m : PMatch) : Bool :=
  pyIn "i currently do not have" (pyLower (orElseStr m.metadata.text? "")) ||
    pyIn "i do not have information" (pyLower (orElseStr m.metadata.text? ""))

/-- The `curated` list after the partition-and-fallback step of
`get_pinecone_answer` (talk2.py lines 337-354): curated matches if any
exist, otherwise the non-curated ones minus the self-poisoning turns. -/
def survivors (ms : List PMatch) : List PMatch :=
  if (ms.filter isCurated).isEmpty then
    (ms.filter fun m => !isCurated m).filter fun m => !selfPoison m
  else ms.filter isCurated

/-- Models `m["metadata"].get("text") or m["metadata"].get("summary", "") or ""` —
the text used both for the constraint-token test and as a context item. -/
def matchText (m : PMatch) : String :=
  orElseStr m.metadata.text? (orElseStr m.metadata.summary? "")

/-- The `relevant` list (talk2.py lines 360-365): survivors whose text
matches the constraint tokens.  `get_pinecone_answer` builds its context,
its combined score and its source list from exactly this list. -/
def relevantMatches (ms : List PMatch) (constraints : Dict) : List PMatch :=
  (survivors ms).filter fun m =>
    _text_matches_tokens (matchText m) (_constraint_tokens constraints)

/-- Models the source label: the title metadata field, defaulting to the match id. -/
def sourceOf (m : PMatch) : String := m.metadata.title?.getD m.id

/-- Embeds `get_pinecone_answer` (talk2.py lines 312-376) from the point where the
Pinecone matches are available: returns `(context, combined_score, sources)`
on a hit and `(None, 0.0, [])` on every miss branch. -/
def get_pinecone_answer (ms : List PMatch) (constraints : Dict) :
    Option String × ℚ × List String :=
  if ms.isEmpty then (none, 0, [])
  else if (survivors ms).isEmpty then (none, 0, [])
  else if (relevantMatches ms constraints).isEmpty then (none, 0, [])
  else
    (some (String.intercalate "\n" ((relevantMatches ms constraints).map matchText)),
     ((relevantMatches ms constraints).map PMatch.score).sum
       / ((relevantMatches ms constraints).length : ℚ),
     (relevantMatches ms constraints).map sourceOf)

/-! ### Claim theorems: contamination guard (C2) and self-poisoning guard (C7) -/

/-- C2.  If the active constraint set flattens to a non-empty token list and
no surviving semantic result's text contains any of those tokens, stage 2
returns `(None, 0.0, [])` — a miss that forces cascade continuation — never
a positive-confidence answer built from the non-matching results. -/
theorem contamination_guard_empty_match (ms : List PMatch) (constraints : Dict)
    (htok : _constraint_tokens constraints ≠ [])
    (hmiss : ∀ m ∈ survivors ms, ∀ tok ∈ _constraint_tokens constraints,
      pyIn tok (pyLower (matchText m)) = false) :
    get_pinecone_answer ms constraints = (none, 0, []) := by
  have hrel : relevantMatches ms constraints = [] := by
    unfold relevantMatches
    rw [List.filter_eq_nil_iff]
    intro m hm
    have hfalse : _text_matches_tokens (matchText m) (_constraint_tokens constraints)
        = false := by
      unfold _text_matches_tokens
      rw [if_neg (by simpa [List.isEmpty_iff] using htok), List.any_eq_false]
      intro tok htok'
      simp [hmiss m hm tok htok']
    simp [hfalse]
  simp [get_pinecone_answer, hrel]

/-- Concrete instantiation of `contamination_guard_empty_match` (witness):
one curated fact about a council meeting, constraints about a zebra. -/
theorem contamination_guard_empty_match_witness :
    get_pinecone_answer
      [⟨"m1", 95/100, ⟨some "fact", some "The council met on Tuesday", none, some "Doc"⟩⟩]
      [("entities", Val.vlist [Val.vstr "Zebra"])] = (none, 0, []) :=
  contamination_guard_empty_match _ _ (by decide) (by decide)

/-- C7.  A semantic result whose declared metadata type is neither `"fact"`
nor `"session_summary"` and whose text contains the phrase
"I do not have information" (checked on the lowercased text, hence
case-insensitively) never survives the guard — regardless of its score —
and hence is never among the `relevant` matches from which
`get_pinecone_answer` builds its returned context, score and sources. -/
theorem self_poisoning_guard (ms : List PMatch) (constraints : Dict) (m : PMatch)
    (_hm : m ∈ ms)
    (htype : isCurated m = false)
    (hphrase : pyIn "i do not have information"
      (pyLower (orElseStr m.metadata.text? "")) = true) :
    m ∉ survivors ms ∧ m ∉ relevantMatches ms constraints := by
  have hsurv : m ∉ survivors ms := by
    unfold survivors
    by_cases hc : (ms.filter isCurated).isEmpty
    · rw [if_pos hc]
      intro hmem
      have hkeep := List.of_mem_filter hmem
      have hsp : selfPoison m = true := by
        unfold selfPoison
        simp [hphrase]
      simp [hsp] at hkeep
    · rw [if_neg hc]
      intro hmem
      have hcur := List.of_mem_filter hmem
      rw [htype] at hcur
      simp at hcur
  exact ⟨hsurv, fun hmem => hsurv (List.mem_of_mem_filter hmem)⟩

/-- Concrete instantiation of `self_poisoning_guard` (witness): a raw
assistant turn with score 0.99 saying it has no information. -/
theorem self_poisoning_guard_witness :
    (⟨"m1", 99/100, ⟨some "raw_turn", some "I do not have information about that.",
        none, none⟩⟩ : PMatch) ∉
      survivors [⟨"m1", 99/100, ⟨some "raw_turn",
        some "I do not have information about that.", none, none⟩⟩]
    ∧ (⟨"m1", 99/100, ⟨some "raw_turn", some "I do not have information about that.",
        none, none⟩⟩ : PMatch) ∉
      relevantMatches [⟨"m1", 99/100, ⟨some "raw_turn",
        some "I do not have information about that.", none, none⟩⟩] [] :=
  self_poisoning_guard _ _ _ (by simp) (by decide) (by decide)

/-! ## Stage-3 web corroboration (talk2.py lines 486-654)

`answer_from_web` first calls `_serp_search_and_fetch`, which fetches the
document text of EVERY parsed search result (lines 508-513), and only then
runs the scoring loop (lines 611-627), which breaks as soon as the
`min_high_conf`-th finding at or above `relevance_cutoff` is collected.
The external pieces are abstracted: `results` is the parsed search-result
list (at most `top_n = 10` entries, enforced by `_parse_serp_results`), and
`scoreOf` is the relevance score the GPT document evaluation assigns to a
candidate (`float(doc_eval.get("relevance_score", 0.0))`).
`answer_from_web_trace` records the fetch and score calls in program
order. -/

structure WebResult where
  title : String
  url : String
  snippet : String
  source_type : String
  text : String
  deriving DecidableEq

inductive WebEvent where
  | fetch (url : String)
  | score (url : String)
  deriving DecidableEq

/-- The test `score >= relevance_cutoff` for a candidate. -/
def webQualifies (scoreOf : WebResult → ℚ) (cutoff : ℚ) (r : WebResult) : Bool :=
  decide (cutoff ≤ scoreOf r)

/-- The scoring loop of `answer_from_web` (lines 611-627): returns the
candidates actually evaluated, in order; `high` is the running
`high_conf` counter; the loop breaks right after appending the finding
that makes `high_conf` reach `min_high_conf`. -/
def scoreLoop (scoreOf : WebResult → ℚ) (cutoff : ℚ) (minHigh : Nat) :
    List WebResult → Nat → List WebResult
  | [], _ => []
  | r :: rs, high =>
    if cutoff ≤ scoreOf r then
      if minHigh ≤ high + 1 then [r]
      else r :: scoreLoop scoreOf cutoff minHigh rs (high + 1)
    else r :: scoreLoop scoreOf cutoff minHigh rs high

/-- The sequence of document fetch and document score calls
`answer_from_web` performs: one fetch per parsed result (inside
`_serp_search_and_fetch`), then one score call per candidate the loop
reaches. -/
def answer_from_web_trace (scoreOf : WebResult → ℚ) (results : List WebResult)
    (cutoff : ℚ) (minHigh : Nat) : List WebEvent :=
  (results.map fun r => WebEvent.fetch r.url) ++
    ((scoreLoop scoreOf cutoff minHigh results 0).map fun r => WebEvent.score r.url)

theorem getLast?_cons_of_ne_nil {α : Type} (a : α) (l : List α) (h : l ≠ []) :
    (a :: l).getLast? = l.getLast? := by
  cases l with
  | nil => exact absurd rfl h
  | cons b bs => rfl

theorem getLast?_map {α β : Type} (f : α → β) (l : List α) :
    (l.map f).getLast? = l.getLast?.map f := by
  induction l with
  | nil => rfl
  | cons a l ih =>
    cases l with
    | nil => rfl
    | cons b bs => exact ih

/-- Behaviour of the scoring loop when enough qualifying candidates remain:
it evaluates exactly a prefix of the candidates, collects exactly
`minHigh - high` further qualifying findings, and the last candidate it
evaluates is the qualifying one that triggers the break. -/
theorem scoreLoop_spec (scoreOf : WebResult → ℚ) (cutoff : ℚ) (minHigh : Nat)
    (rs : List WebResult) (high : Nat) (hlt : high < minHigh)
    (hcount : minHigh ≤ high + rs.countP (webQualifies scoreOf cutoff)) :
    (∃ rest, rs = scoreLoop scoreOf cutoff minHigh rs high ++ rest)
    ∧ (scoreLoop scoreOf cutoff minHigh rs high).countP (webQualifies scoreOf cutoff)
        = minHigh - high
    ∧ ∃ r, (scoreLoop scoreOf cutoff minHigh rs high).getLast? = some r
        ∧ webQualifies scoreOf cutoff r = true := by
  induction rs generalizing high with
  | nil =>
    exfalso
    simp only [List.countP_nil] at hcount
    omega
  | cons r rs ih =>
    by_cases hq : webQualifies scoreOf cutoff r = true
    · have hqle : cutoff ≤ scoreOf r := of_decide_eq_true hq
      by_cases hstop : minHigh ≤ high + 1
      · have hloop : scoreLoop scoreOf cutoff minHigh (r :: rs) high = [r] := by
          simp [scoreLoop, hqle, hstop]
        rw [hloop]
        refine ⟨⟨rs, rfl⟩, ?_, ⟨r, rfl, hq⟩⟩
        simp [List.countP_cons, hq]
        omega
      · have hloop : scoreLoop scoreOf cutoff minHigh (r :: rs) high
            = r :: scoreLoop scoreOf cutoff minHigh rs (high + 1) := by
          simp [scoreLoop, hqle, hstop]
        have hcount' : minHigh ≤ (high + 1) + rs.countP (webQualifies scoreOf cutoff) := by
          simp [List.countP_cons, hq] at hcount
          omega
        obtain ⟨⟨rest, hrest⟩, hcnt, r', hlast, hq'⟩ := ih (high + 1) (by omega) hcount'
        rw [hloop]
        have hne : scoreLoop scoreOf cutoff minHigh rs (high + 1) ≠ [] := by
          intro hnil
          rw [hnil] at hlast
          simp at hlast
        refine ⟨⟨rest, by rw [List.cons_append, ← hrest]⟩, ?_, ⟨r', ?_, hq'⟩⟩
        · simp [List.countP_cons, hq, hcnt]
          omega
        · rw [getLast?_cons_of_ne_nil _ _ hne]
          exact hlast
    · have hqle : ¬cutoff ≤ scoreOf r := by
        intro hle
        exact hq (decide_eq_true hle)
      have hloop : scoreLoop scoreOf cutoff minHigh (r :: rs) high
          = r :: scoreLoop scoreOf cutoff minHigh rs high := by
        simp [scoreLoop, hqle]
      have hcount' : minHigh ≤ high + rs.countP (webQualifies scoreOf cutoff) := by
        simp [List.countP_cons, hq] at hcount
        omega
      obtain ⟨⟨rest, hrest⟩, hcnt, r', hlast, hq'⟩ := ih high hlt hcount'
      rw [hloop]
      have hne : scoreLoop scoreOf cutoff minHigh rs high ≠ [] := by
        intro hnil
        rw [hnil] at hlast
        simp at hlast
      refine ⟨⟨rest, by rw [List.cons_append, ← hrest]⟩, ?_, ⟨r', ?_, hq'⟩⟩
      · simp [List.countP_cons, hq, hcnt]
      · rw [getLast?_cons_of_ne_nil _ _ hne]
        exact hlast

/-- C8.  With the defaults of `answer_from_web` (`top_n = 10`,
`relevance_cutoff = 0.70`, `min_high_conf = 3`), whenever the candidate
stream contains a 3rd finding at or above the cutoff: the loop scores
exactly a prefix of the candidates, collects exactly 3 high-confidence
findings, and the score call on that 3rd qualifying finding is the LAST
fetch-or-score event of the whole trace — no further document fetch and no
further document score call occurs for the remaining candidates.  (All
fetches happen inside `_serp_search_and_fetch`, before any scoring.) -/
theorem web_early_stop (scoreOf : WebResult → ℚ) (results : List WebResult)
    (_hlen : results.length ≤ 10)
    (h3 : 3 ≤ results.countP (webQualifies scoreOf (7/10))) :
    (∃ rest, results = scoreLoop scoreOf (7/10) 3 results 0 ++ rest)
    ∧ (scoreLoop scoreOf (7/10) 3 results 0).countP (webQualifies scoreOf (7/10)) = 3
    ∧ ∃ r, (scoreLoop scoreOf (7/10) 3 results 0).getLast? = some r
        ∧ webQualifies scoreOf (7/10) r = true
        ∧ (answer_from_web_trace scoreOf results (7/10) 3).getLast?
            = some (WebEvent.score r.url) := by
  obtain ⟨hpre, hcnt, r, hlast, hq⟩ :=
    scoreLoop_spec scoreOf (7/10) 3 results 0 (by omega) (by simpa using h3)
  refine ⟨hpre, by simpa using hcnt, r, hlast, hq, ?_⟩
  unfold answer_from_web_trace
  have hne : (scoreLoop scoreOf (7/10) 3 results 0).map (fun r => WebEvent.score r.url)
      ≠ [] := by
    intro h
    rw [List.map_eq_nil_iff] at h
    rw [h] at hlast
    simp at hlast
  rw [List.getLast?_append_of_ne_nil _ hne, getLast?_map, hlast]
  rfl

def c8results : List WebResult :=
  [⟨"t1", "u1", "s1", "organic", "x"⟩, ⟨"t2", "u2", "s2", "organic", "y"⟩,
   ⟨"t3", "u3", "s3", "organic", "z"⟩]

/-- Concrete instantiation of `web_early_stop` (witness): three candidates,
all scoring exactly the cutoff. -/
theorem web_early_stop_witness :
    (∃ rest, c8results = scoreLoop (fun _ => (7:ℚ)/10) (7/10) 3 c8results 0 ++ rest)
    ∧ (scoreLoop (fun _ => (7:ℚ)/10) (7/10) 3 c8results 0).countP
        (webQualifies (fun _ => (7:ℚ)/10) (7/10)) = 3
    ∧ ∃ r, (scoreLoop (fun _ => (7:ℚ)/10) (7/10) 3 c8results 0).getLast? = some r
        ∧ webQualifies (fun _ => (7:ℚ)/10) (7/10) r = true
        ∧ (answer_from_web_trace (fun _ => (7:ℚ)/10) c8results (7/10) 3).getLast?
            = some (WebEvent.score r.url) :=
  web_early_stop (fun _ => (7:ℚ)/10) c8results (by decide) (by
    have hq : ∀ r : WebResult, webQualifies (fun _ => (7:ℚ)/10) (7/10) r = true :=
      fun _ => decide_eq_true (le_refl _)
    simp [c8results, List.countP_cons, hq])

/-! ## `_safe_extract_json` (src/memory_manager.py lines 153-187)

`json.loads` is an external library call; it is abstracted as an arbitrary
fallible function `loads : String → Except Unit Val` (the error case is a
raised exception).  The embedding mirrors the Python function: the
falsiness guard on the input, the whole-string attempt, the `{...}`
fragment (first `{` to last `}`, requiring `end > start`), the `[...]`
fragment, each attempt wrapped in `try/except`, and the default as the
final fallback. -/

/-- Python `text.find(c)` for a single character, as an index option
(`-1` becomes `none`). -/
def pyFindChar (t : String) (c : Char) : Option Nat := t.toList.findIdx? (· == c)

/-- Python `text.rfind(c)`: index of the last occurrence. -/
def pyRfindChar (t : String) (c : Char) : Option Nat :=
  match t.toList.reverse.findIdx? (· == c) with
  | some i => some (t.toList.length - 1 - i)
  | none => none

/-- Python `text[s:e+1]` for `0 ≤ s ≤ e < len`. -/
def pySlice (t : String) (s e : Nat) : String := String.mk ((t.toList.drop s).take (e + 1 - s))

/-- The fragment `text[start:end+1]` between the first `copen` and the last
`cclose`, provided both exist and `end > start` — exactly the guard
`if s != -1 and e != -1 and e > s` of the source. -/
def fragBetween (t : String) (copen cclose : Char) : Option String :=
  match pyFindChar t copen, pyRfindChar t cclose with
  | some s, some e => if s < e then some (pySlice t s e) else none
  | _, _ => none

def tryArrayFrag (loads : String → Except Unit Val) (text : String) (default : Val) :
    Except Unit Val :=
  match fragBetween text '[' ']' with
  | some frag =>
    match loads frag with
    | .ok v => .ok v
    | .error _ => .ok default
  | none => .ok default

/-- Embeds `_safe_extract_json` (memory_manager.py lines 153-187): falsy input
returns the default; otherwise try the whole string, then the `{...}`
fragment, then the `[...]` fragment, each parse failure caught; finally the
default. -/
def _safe_extract_json (loads : String → Except Unit Val) (text : String) (default : Val) :
    Except Unit Val :=
  if text = "" then .ok default
  else
    match loads text with
    | .ok v => .ok v
    | .error _ =>
      match fragBetween text lbrace rbrace with
      | some frag =>
        match loads frag with
        | .ok v => .ok v
        | .error _ => tryArrayFrag loads text default
      | none => tryArrayFrag loads text default

/-- The candidate strings of the claim, in the order the claim states them:
the whole string, the embedded `{...}` object fragment, the embedded
`[...]` array fragment. -/
def jsonCandidates (text : String) : List String :=
  [text] ++ (fragBetween text lbrace rbrace).toList ++ (fragBetween text '[' ']').toList

/-- Written from the claim's words: the parsed value of the first candidate
that parses, and the supplied default otherwise. -/
def firstParsed (loads : String → Except Unit Val) : List String → Val → Val
  | [], d => d
  | c :: cs, d =>
    match loads c with
    | .ok v => v
    | .error _ => firstParsed loads cs d

theorem tryArrayFrag_eq (loads : String → Except Unit Val) (text : String) (default : Val) :
    tryArrayFrag loads text default
      = .ok (firstParsed loads (fragBetween text '[' ']').toList default) := by
  unfold tryArrayFrag
  cases hb : fragBetween text '[' ']' with
  | none => rfl
  | some frag =>
    cases hf : loads frag with
    | ok v => simp [firstParsed, hf]
    | error e => simp [firstParsed, hf]

/-- C10.  `_safe_extract_json` is total: for every parser behaviour `loads`
(subject only to `json.loads` failing on the empty string, which it does),
every input string and every default, it returns `.ok` — no exception
escapes — and the value is exactly the cascade of the claim: the parsed
whole string, else the parsed `{...}` fragment, else the parsed `[...]`
fragment (tried in that order), else the supplied default. -/
theorem safe_extract_json_total (loads : String → Except Unit Val) (text : String)
    (default : Val) (hempty : loads "" = .error ()) :
    _safe_extract_json loads text default
      = .ok (firstParsed loads (jsonCandidates text) default) := by
  unfold _safe_extract_json
  by_cases ht : text = ""
  · subst ht
    rw [if_pos rfl]
    simp [jsonCandidates, fragBetween, pyFindChar, pyRfindChar, firstParsed, hempty]
  · rw [if_neg ht]
    cases hl : loads text with
    | ok v => simp [firstParsed, jsonCandidates, hl]
    | error e =>
      cases hb : fragBetween text lbrace rbrace with
      | some frag =>
        cases hf : loads frag with
        | ok v => simp [firstParsed, jsonCandidates, hb, hl, hf]
        | error e2 =>
          rw [tryArrayFrag_eq]
          simp [firstParsed, jsonCandidates, hb, hl, hf]
      | none =>
        rw [tryArrayFrag_eq]
        simp [firstParsed, jsonCandidates, hb, hl]

/-- Concrete instantiation of `safe_extract_json_total` (witness): a parser
that always raises still cannot make extraction raise — the default comes
back. -/
theorem safe_extract_json_total_witness :
    _safe_extract_json (fun _ => .error ()) "not json" Val.vnone
      = .ok (firstParsed (fun _ => .error ()) (jsonCandidates "not json") Val.vnone) :=
  safe_extract_json_total (fun _ => .error ()) "not json" Val.vnone rfl

end GovSight
